import Mathlib

/-!
Formal model of the EigenWatch subgraph-pipeline incremental ingestion engine.

The development shallowly embeds the Python source:
- `src/utils/event_transformers.py` (record normalization),
- `src/utils/query_builder.py` (cursor-based query planning),
- `src/database/event_loader.py` (idempotent upsert loading),
- `src/database/entity_manager.py` (entity dependency upserts),
- `src/subgraph_pipeline/defs/assets.py` (per-cycle orchestration),
- `src/models/events.py` (the event tables' foreign keys into the entity tables),
- `src/config/event_config.py` (descriptor registry).

Machine-level details that the verified properties do not depend on are
abstracted explicitly: timestamps are abstract instants (`Int`), database
sessions are explicit stores (association lists keyed by natural id), and
the per-row exception behaviour of a write is an oracle parameter.
-/

namespace SubgraphPipeline

/-- A JSON-like value as it appears in a fetched GraphQL page: the cell
content of a pandas DataFrame produced from the subgraph response. -/
inductive Value where
  | vNull
  | vStr (s : String)
  | vInt (n : Int)
  | vBool (b : Bool)
  | vList (xs : List Value)
  | vObj (fields : List (String × Value))

/-- One DataFrame row: an association list from column name to cell value.
A column missing from the row reads as null (pandas NaN). -/
abbrev Cell := List (String × Value)

/-- Read a cell of a row; absent columns read as null. -/
def getVal (row : Cell) (c : String) : Value :=
  (row.lookup c).getD Value.vNull

/-- Write a cell of a row, overwriting every entry of that column if the
column exists and appending it otherwise (pandas column assignment). -/
def setEntry (row : Cell) (c : String) (v : Value) : Cell :=
  if (row.lookup c).isSome then
    row.map (fun p => if p.1 = c then (c, v) else p)
  else
    row ++ [(c, v)]

/-- A pandas DataFrame: an ordered column list plus its rows. -/
structure DataFrame where
  cols : List String
  rows : List Cell

/-- Column assignment `df[c] = df.apply(f)`: adds the column if new and
writes `f row` into every row. -/
def DataFrame.setCol (df : DataFrame) (c : String) (f : Cell → Value) : DataFrame :=
  { cols := if df.cols.contains c then df.cols else df.cols ++ [c]
  , rows := df.rows.map (fun r => setEntry r c (f r)) }

/-- `x.get(sub_field) if isinstance(x, dict) else None` from
`EventTransformer.flatten_nested_fields`: project a sub-field out of a
nested value, degrading to null when the value is not a structured object
or the sub-field is absent. -/
def projectSub (v : Value) (sub : String) : Value :=
  match v with
  | Value.vObj fs => (fs.lookup sub).getD Value.vNull
  | _ => Value.vNull

/-- The inner `for sub_field in sub_fields` loop of
`flatten_nested_fields`: assign `df[parent_sub] = df[parent].apply(...)`
for each declared sub-field in order. -/
def flattenSubs (df : DataFrame) (parent : String) : List String → DataFrame
  | [] => df
  | sub :: rest =>
      flattenSubs
        (df.setCol (parent ++ "_" ++ sub) (fun r => projectSub (getVal r parent) sub))
        parent rest

/-- One iteration of the outer loop of `flatten_nested_fields`: skip the
declared parent when it is not a column of the frame. -/
def flattenOne (df : DataFrame) (parent : String) (subs : List String) : DataFrame :=
  if df.cols.contains parent then flattenSubs df parent subs else df

/-- `EventTransformer.flatten_nested_fields` (event_transformers.py lines
18-56): flatten every declared nested field into `parent_sub` scalar
columns, keeping the parent column. Returns the frame unchanged when the
nested configuration is empty or the frame is empty. -/
def flatten_nested_fields (df : DataFrame) (nested : List (String × List String)) : DataFrame :=
  if nested.isEmpty || df.rows.isEmpty then df
  else nested.foldl (fun acc pc => flattenOne acc pc.1 pc.2) df

/-- `EventTransformer.rename_columns`: rename columns by the descriptor
map (a column absent from the map keeps its name). -/
def rename_columns (df : DataFrame) (mapping : List (String × String)) : DataFrame :=
  if df.rows.isEmpty then df
  else
    { cols := df.cols.map (fun c => (mapping.lookup c).getD c)
    , rows := df.rows.map (fun r => r.map (fun p => ((mapping.lookup p.1).getD p.1, p.2))) }

/-! ### Query planning (`src/utils/query_builder.py`) -/

/-- The resume cursor handed to `SubgraphQueryBuilder.build_query`:
`blockNumber` is always present, `logIndex` may be absent. -/
structure Cursor where
  blockNumber : Int
  logIndex : Option Int

/-- One scalar condition of a GraphQL `where` object. -/
inductive ScalarCond where
  | condInt (key : String) (n : Int)
  | condStr (key : String) (s : String)

/-- One entry of the `where` object the builder assembles: a scalar
condition, or the `or` entry whose branches are each a conjunction of
scalar conditions (the only nesting `_build_cursor_filter` produces). -/
inductive WhereClause where
  | scalar (c : ScalarCond)
  | orClause (branches : List (List ScalarCond))

/-- A fetched record's order key, as the subgraph filters see it. -/
structure FetchRec where
  id : String
  block : Int
  log : Int

/-- Subgraph semantics of one scalar condition. -/
def matchesScalar (r : FetchRec) : ScalarCond → Bool
  | ScalarCond.condInt key n =>
      if key = "blockNumber_gt" then r.block > n
      else if key = "blockNumber_gte" then r.block ≥ n
      else if key = "blockNumber_lt" then r.block < n
      else if key = "blockNumber" then r.block = n
      else if key = "logIndex_gt" then r.log > n
      else false
  | ScalarCond.condStr key s =>
      if key = "id_gt" then s < r.id else false

/-- Whether a record satisfies one `where` entry: an `or` entry holds
when some branch holds, and a branch is a conjunction. -/
def matchesClause (r : FetchRec) : WhereClause → Bool
  | WhereClause.scalar c => matchesScalar r c
  | WhereClause.orClause bs => bs.any (fun b => b.all (matchesScalar r))

/-- Whether a record satisfies every entry of a `where` object (the
entries of an object are conjoined). -/
def matchesAll (r : FetchRec) (cs : List WhereClause) : Bool :=
  cs.all (matchesClause r)

/-- `SubgraphQueryBuilder._build_cursor_filter` (query_builder.py lines
57-81): with both coordinates, emit
`or: [ \x7bblockNumber_gt\x7d, \x7bblockNumber, logIndex_gt\x7d ]`;
with no `logIndex`, fall back to block-only filtering; with no cursor,
no filter. -/
def build_cursor_filter : Option Cursor → List WhereClause
  | none => []
  | some c =>
    match c.logIndex with
    | some l =>
        [WhereClause.orClause
          [ [ScalarCond.condInt "blockNumber_gt" c.blockNumber]
          , [ScalarCond.condInt "blockNumber" c.blockNumber,
             ScalarCond.condInt "logIndex_gt" l] ]]
    | none => [WhereClause.scalar (ScalarCond.condInt "blockNumber_gt" c.blockNumber)]

/-- The `filters` dictionary `SubgraphQueryBuilder.build_query`
(query_builder.py lines 83-133) assembles before serializing the `where`
clause: `id_gt`, `blockNumber_gte`, `blockNumber_lt`, then the cursor
filter merged in. (`extra_filters` is not used by the pipeline assets.) -/
def build_query_filters (last_id : Option String) (block_number_gte : Option Int)
    (block_number_lt : Option Int) (cursor : Option Cursor) : List WhereClause :=
  (match last_id with
   | some s => [WhereClause.scalar (ScalarCond.condStr "id_gt" s)]
   | none => [])
  ++ (match block_number_gte with
      | some n => [WhereClause.scalar (ScalarCond.condInt "blockNumber_gte" n)]
      | none => [])
  ++ (match block_number_lt with
      | some n => [WhereClause.scalar (ScalarCond.condInt "blockNumber_lt" n)]
      | none => [])
  ++ build_cursor_filter cursor

/-! ### Event rows and the upsert loader (`src/database/event_loader.py`) -/

/-- One schema-ready event row as `load_events` consumes it: the natural
key `id`, the mandatory `block_number`, the optional `log_index`, the two
timestamp instants, and the remaining event-specific columns. -/
structure EventRow where
  id : String
  block_number : Int
  log_index : Option Int
  created_at : Int
  updated_at : Int
  data : List (String × Value)

/-- `EventTransformer.add_timestamps` (event_transformers.py lines
90-109) at the level of schema-ready rows: stamp
`created_at = updated_at = now` on every row of a nonempty page, with
timestamps as abstract instants. -/
def add_timestamps (now : Int) (page : List EventRow) : List EventRow :=
  if page.isEmpty then page
  else page.map (fun r => { r with created_at := now, updated_at := now })

/-- A target event table: its rows in write order, keyed by `id`. -/
abbrev Store := List EventRow

/-- Find the stored row with the given natural key. -/
def findRow (st : Store) (i : String) : Option EventRow :=
  st.find? (fun q => q.id == i)

/-- The classification the `RETURNING` clause of `load_events` computes on
the post-write row. -/
inductive RowAction where
  | inserted
  | updated
  | skipped
deriving DecidableEq

/-- `CASE WHEN created_at = updated_at THEN inserted ELSE updated` on a
post-write row. -/
def classify (w : EventRow) : RowAction :=
  if w.created_at = w.updated_at then RowAction.inserted else RowAction.updated

/-- The `INSERT ... ON CONFLICT (id) DO UPDATE ... WHERE
updated_at <> excluded.updated_at RETURNING ...` statement one loop
iteration of `load_events` executes: insert when the key is fresh; on
collision update every non-`id`, non-`created_at` column only when the
incoming `updated_at` differs from the stored one, else write nothing and
return no row (skipped). -/
def upsertRow (st : Store) (row : EventRow) : Store × RowAction :=
  match findRow st row.id with
  | none => (st ++ [row], classify row)
  | some old =>
      if old.updated_at = row.updated_at then (st, RowAction.skipped)
      else
        let written : EventRow := { row with created_at := old.created_at }
        (st.map (fun q => if q.id = row.id then written else q), classify written)

/-- The outcome counts `load_events` returns. -/
structure LoadReport where
  inserted : Nat
  updated : Nat
  skipped : Nat
  errors : Nat
deriving DecidableEq

/-- The dictionary literal `load_events` returns. -/
def LoadReport.toDict (rep : LoadReport) : List (String × Nat) :=
  [("inserted", rep.inserted), ("updated", rep.updated),
   ("skipped", rep.skipped), ("errors", rep.errors)]

/-- Bump the count matching one row outcome. -/
def LoadReport.bump (rep : LoadReport) : RowAction → LoadReport
  | RowAction.inserted => { rep with inserted := rep.inserted + 1 }
  | RowAction.updated => { rep with updated := rep.updated + 1 }
  | RowAction.skipped => { rep with skipped := rep.skipped + 1 }

/-- The `for idx, row in df.iterrows()` loop of `load_events`: each row is
processed inside its own `try` block; `rowError` is the oracle saying
whether that block raises for the row (type-coercion failure in
`_prepare_row_data`, constraint violation on execute, ...), in which case
the error count is bumped and the loop continues. -/
def loadGo (rowError : EventRow → Bool) : Store → LoadReport → List EventRow → Store × LoadReport
  | st, rep, [] => (st, rep)
  | st, rep, r :: rest =>
      if rowError r then
        loadGo rowError st { rep with errors := rep.errors + 1 } rest
      else
        let out := upsertRow st r
        loadGo rowError out.1 (rep.bump out.2) rest

/-- `EventLoader.load_events` (event_loader.py lines 22-117): an empty
frame returns all-zero counts without touching the store; otherwise each
row is upserted in order under row-level exception isolation, and the
aggregate report is returned (the function never raises). -/
def load_events (rowError : EventRow → Bool) (st : Store) (df : List EventRow) :
    Store × LoadReport :=
  if df.isEmpty then (st, ⟨0, 0, 0, 0⟩)
  else loadGo rowError st ⟨0, 0, 0, 0⟩ df

/-- `EventLoader.get_last_processed_block` (event_loader.py lines
200-226): `ORDER BY block_number DESC LIMIT 1`, i.e. the maximum
`block_number` of the table, or nothing when the table is empty. -/
def get_last_processed_block (tbl : Store) : Option Int :=
  (tbl.map (fun r => r.block_number)).max?

/-- Modelled from the spec: `EventLoader.get_last_cursor`, which
assets.py line 74 calls but which is absent from the source tree. Spec
section 4.5: "Preferred granularity: (blockNumber, logIndex) read from
the most recently written row of the target table. Falls back to
max(blockNumber) alone when logIndex is absent." Modelled as returning
the (blockNumber, logIndex) pair of the most recently written row when
that row carries a logIndex, and nothing otherwise, signalling the
caller to fall back. -/
def get_last_cursor (tbl : Store) : Option (Int × Option Int) :=
  match tbl.getLast? with
  | none => none
  | some r =>
    match r.log_index with
    | some l => some (r.block_number, some l)
    | none => none

/-- The three query shapes `_extract_event` (assets.py lines 72-119) can
request: cursor-based pagination, `blockNumber_gte` continuation, or a
full backfill. -/
inductive Resume where
  | cursorBased (blockNumber logIndex : Int)
  | blockGte (g : Int)
  | fullLoad
deriving DecidableEq

/-- The cursor read-back of `_extract_event` (assets.py lines 72-119):
prefer the cursor pair (substituting 0 for a missing logIndex); when no
cursor is available fall back to `block_number_gte = last_block + 1`
from `get_last_processed_block`; with neither, run a full load. -/
def readResume (tbl : Store) : Resume :=
  match get_last_cursor tbl with
  | some (b, li) => Resume.cursorBased b (li.getD 0)
  | none =>
    match get_last_processed_block tbl with
    | some lb => Resume.blockGte (lb + 1)
    | none => Resume.fullLoad

/-! ### Entity upserts (`src/database/entity_manager.py`) -/

/-- A stored lookup-entity row: its two timestamp instants (the `id` and
`address` columns both hold the entity key, kept outside the value). -/
structure EntityRow where
  created_at : Int
  updated_at : Int
deriving DecidableEq

/-- A lookup-entity table keyed by natural address. -/
abbrev EStore := List (String × EntityRow)

/-- The three-key counts dictionary the entity manager returns. -/
def dict3 (i u s : Nat) : List (String × Nat) :=
  [("inserted", i), ("updated", u), ("skipped", s)]

/-- The per-id loop of `EntityManager._upsert_simple`: each id runs
`INSERT ... ON CONFLICT (id) DO UPDATE SET updated_at = now RETURNING
id, created_at, updated_at` inside its own `try` block; `fails` is the
oracle saying whether that block raises for the id, in which case the
**skipped** count is bumped and the loop continues. There is no `WHERE`
gate, so a conflicting id always writes and always returns a row. -/
def upsertSimpleGo (fails : String → Bool) (now : Int) :
    EStore → Nat → Nat → Nat → List String → EStore × Nat × Nat × Nat
  | st, i, u, s, [] => (st, i, u, s)
  | st, i, u, s, eid :: rest =>
      if fails eid then upsertSimpleGo fails now st i u (s + 1) rest
      else
        match st.lookup eid with
        | none => upsertSimpleGo fails now (st ++ [(eid, ⟨now, now⟩)]) (i + 1) u s rest
        | some old =>
            let st2 := st.map (fun p => if p.1 = eid then (eid, ⟨old.created_at, now⟩) else p)
            if old.created_at = now then upsertSimpleGo fails now st2 (i + 1) u s rest
            else upsertSimpleGo fails now st2 i (u + 1) s rest

/-- `EntityManager._upsert_simple` (entity_manager.py lines 18-85):
deduplicate the ids, upsert each, and return the three-key counts
dictionary `\x7b"inserted", "updated", "skipped"\x7d`. -/
def upsert_simple (fails : String → Bool) (now : Int) (st : EStore) (ids : List String) :
    EStore × List (String × Nat) :=
  if ids.isEmpty then (st, dict3 0 0 0)
  else
    let out := upsertSimpleGo fails now st 0 0 0 ids.eraseDups
    (out.1, dict3 out.2.1 out.2.2.1 out.2.2.2)

/-! ### Per-cycle orchestration (`src/subgraph_pipeline/defs/assets.py`) -/

/-- One entry of the `entity_stats` dictionary `_upsert_entities`
builds: either the upsert counts or the caught error string. -/
inductive EntityResult where
  | stats (counts : List (String × Nat))
  | errorResult (msg : String)
deriving DecidableEq

/-- `_upsert_entities` (assets.py lines 184-242): for each declared
entity dependency in order, look up its registered extractor (logging
and skipping the type when none is registered), then inside a `try`
block run the extractor over the transformed page and dispatch the
upsert; an exception is caught and recorded as that type's error entry
without blocking the remaining types. `run` is the dispatch plus upsert
step, which may raise. -/
def upsert_entities (page : List EventRow)
    (extractors : List (String × (List EventRow → Except String (List String))))
    (run : String → List String → Except String (List (String × Nat))) :
    List String → List (String × EntityResult)
  | [] => []
  | t :: rest =>
    match extractors.lookup t with
    | none => upsert_entities page extractors run rest
    | some ext =>
      match (ext page).bind (run t) with
      | Except.ok s => (t, EntityResult.stats s) :: upsert_entities page extractors run rest
      | Except.error e => (t, EntityResult.errorResult e) :: upsert_entities page extractors run rest

/-- The entity-type tags `_upsert_entities` dispatches on by name. -/
def knownEntityTypes : List String := ["Operator", "Staker", "AVS", "Strategy"]

/-- The `if entity_type == "Operator" ... else` dispatch of
`_upsert_entities`: a known tag runs `_upsert_simple` against that
type's lookup table; an unknown tag logs a warning and yields all-zero
stats at runtime. -/
def dispatch_upsert (stores : String → EStore) (fails : String → String → Bool) (now : Int)
    (t : String) (ids : List String) : Except String (List (String × Nat)) :=
  if t ∈ knownEntityTypes then Except.ok (upsert_simple (fails t) now (stores t) ids).2
  else Except.ok (dict3 0 0 0)

/-- The result dictionary `_load_event` (assets.py lines 258-349)
returns to the scheduler. -/
structure CycleReport where
  status : String
  events_fetched : Nat
  events_inserted : Nat
  events_updated : Nat
  events_skipped : Nat
  events_errors : Nat
  entities_upserted : List (String × EntityResult)
  last_block_processed : Option Int

/-- The entity-upsert plus event-load tail of one cycle
(`_upsert_entities` followed by `_load_event`, assets.py lines 184-349):
a missing transform output reports `no_new_data` with zero counts and
the table's last block; otherwise entities are upserted, the page is
loaded, and the success report aggregates both. -/
def run_cycle (rowError : EventRow → Bool) (store : Store)
    (transform_output : Option (List EventRow))
    (extractors : List (String × (List EventRow → Except String (List String))))
    (run : String → List String → Except String (List (String × Nat)))
    (deps : List String) : Store × CycleReport :=
  match transform_output with
  | none =>
      (store,
       { status := "no_new_data", events_fetched := 0, events_inserted := 0,
         events_updated := 0, events_skipped := 0, events_errors := 0,
         entities_upserted := [],
         last_block_processed := get_last_processed_block store })
  | some df =>
      let es := upsert_entities df extractors run deps
      let out := load_events rowError store df
      (out.1,
       { status := "success", events_fetched := df.length,
         events_inserted := out.2.inserted, events_updated := out.2.updated,
         events_skipped := out.2.skipped, events_errors := out.2.errors,
         entities_upserted := es,
         last_block_processed := (df.map (fun r => r.block_number)).max? })

/-! ### The cycle against the FK-bearing schema (`src/models/events.py`) -/

/-- Functional update of the per-entity-type session state. -/
def updStores (stores : String → EStore) (t : String) (st : EStore) : String → EStore :=
  fun u => if u = t then st else stores u

/-- `_upsert_entities` (assets.py lines 184-242) together with its
database effects: the per-type loop threads the entity tables it
writes. A known tag runs `_upsert_simple` against that type's table,
committing the extracted entities; an unknown tag yields zero stats; a
type whose extraction raises is recorded as an error entry and commits
nothing for that type. -/
def upsert_entities_st (page : List EventRow) (now : Int)
    (extractors : List (String × (List EventRow → Except String (List String)))) :
    (String → EStore) → List String → (String → EStore) × List (String × EntityResult)
  | stores, [] => (stores, [])
  | stores, t :: rest =>
    match extractors.lookup t with
    | none => upsert_entities_st page now extractors stores rest
    | some ext =>
      match ext page with
      | Except.error e =>
          let out := upsert_entities_st page now extractors stores rest
          (out.1, (t, EntityResult.errorResult e) :: out.2)
      | Except.ok ids =>
          if t ∈ knownEntityTypes then
            let u := upsert_simple (fun _ => false) now (stores t) ids
            let out := upsert_entities_st page now extractors (updStores stores t u.1) rest
            (out.1, (t, EntityResult.stats u.2) :: out.2)
          else
            let out := upsert_entities_st page now extractors stores rest
            (out.1, (t, EntityResult.stats (dict3 0 0 0)) :: out.2)

/-- The NOT NULL foreign keys of the event tables (models/events.py,
e.g. `operator_id = Column(String, ForeignKey("operators.id"),
nullable=False)`): `fks` lists (reference column, entity type) pairs.
Writing an event row whose reference column holds an id absent from
that entity's table raises IntegrityError at execute, which the per-row
except of `load_events` catches. -/
def fk_row_error (stores : String → EStore) (fks : List (String × String))
    (r : EventRow) : Bool :=
  fks.any (fun fk =>
    match r.data.lookup fk.1 with
    | some (Value.vStr k) => ((stores fk.2).lookup k).isNone
    | _ => false)

/-- One cycle tail against the FK-bearing schema: the entity upserts
commit in their own session first (assets.py step 3), then
`_load_event` runs `load_events` with the database enforcing the event
table's foreign keys against the committed entity tables; `rowError`
carries the remaining per-row failure modes (type coercion and the
like). -/
def run_cycle_fk (rowError : EventRow → Bool) (now : Int) (store : Store)
    (stores : String → EStore) (transform_output : Option (List EventRow))
    (extractors : List (String × (List EventRow → Except String (List String))))
    (deps : List String) (fks : List (String × String)) :
    Store × (String → EStore) × CycleReport :=
  match transform_output with
  | none =>
      (store, stores,
       { status := "no_new_data", events_fetched := 0, events_inserted := 0,
         events_updated := 0, events_skipped := 0, events_errors := 0,
         entities_upserted := [],
         last_block_processed := get_last_processed_block store })
  | some df =>
      let ent := upsert_entities_st df now extractors stores deps
      let out := load_events (fun r => rowError r || fk_row_error ent.1 fks r) store df
      (out.1, ent.1,
       { status := "success", events_fetched := df.length,
         events_inserted := out.2.inserted, events_updated := out.2.updated,
         events_skipped := out.2.skipped, events_errors := out.2.errors,
         entities_upserted := ent.2,
         last_block_processed := (df.map (fun r => r.block_number)).max? })

/-! ### Descriptor registry (`src/config/event_config.py`) -/

/-- `OPERATOR_EVENT_CONFIGS`: the registered GraphQL event names and
their target tables (the descriptor fields the verified properties
touch). -/
def OPERATOR_EVENT_CONFIGS : List (String × String) :=
  [ ("operatorRegistereds", "operator_registered_events")
  , ("operatorMetadataURIUpdateds", "operator_metadata_update_events")
  , ("delegationApproverUpdateds", "delegation_approver_updated_events")
  , ("allocationDelaysSets", "allocation_delay_set_events") ]

/-- `get_event_config` (event_config.py lines 180-189): look up a
GraphQL name in the registry, raising `ValueError` for an unknown one. -/
def get_event_config (graphql_name : String) : Except String String :=
  match OPERATOR_EVENT_CONFIGS.lookup graphql_name with
  | some c => Except.ok c
  | none => Except.error ("Unknown event type: " ++ graphql_name)

/-- A concrete schema-ready row used to instantiate the theorems. -/
def sampleRow (i : String) (b : Int) : EventRow :=
  { id := i, block_number := b, log_index := some 0,
    created_at := 5, updated_at := 5, data := [] }

/-- A concrete row of an FK-bearing event table (its `operator_id`
column references the operators table). -/
def fkRow : EventRow :=
  { id := "tx1-0", block_number := 100, log_index := some 0,
    created_at := 5, updated_at := 5,
    data := [("operator_id", Value.vStr "0xA")] }

/-! ### Helper lemmas -/

lemma append_cancel_str (a b c : String) (h : a ++ b = a ++ c) : b = c := by
  have hd := congrArg String.data h
  simp only [String.data_append] at hd
  exact String.ext (List.append_cancel_left hd)

lemma parent_sub_ne (p sub : String) : p ++ "_" ++ sub ≠ p := by
  intro h
  have hl := congrArg String.length h
  have h1 : "_".length = 1 := rfl
  simp [String.length_append, h1] at hl
  omega

lemma parent_sub_inj (p s1 s2 : String) (h : p ++ "_" ++ s1 = p ++ "_" ++ s2) : s1 = s2 :=
  append_cancel_str (p ++ "_") s1 s2 h

lemma lookup_cons {β : Type} (a k : String) (w : β) (l : List (String × β)) :
    ((k, w) :: l).lookup a = if a = k then some w else l.lookup a := by
  by_cases h : a = k
  · subst h; simp [List.lookup]
  · simp [List.lookup, h, beq_eq_false_iff_ne.mpr h]

lemma lookup_map_replace (r : Cell) (c c2 : String) (v : Value) :
    (r.map (fun p => if p.1 = c then (c, v) else p)).lookup c2 =
      if c2 = c then (r.lookup c).map (fun _ => v) else r.lookup c2 := by
  induction r with
  | nil => simp
  | cons hd tl ih =>
    obtain ⟨k, w⟩ := hd
    by_cases hk : k = c
    · subst hk
      by_cases h2 : c2 = k <;> simp [lookup_cons, h2, ih]
    · by_cases h2 : c2 = k
      · subst h2
        simp [lookup_cons, hk, Ne.symm hk, ih]
      · by_cases h3 : c2 = c
        · subst h3
          simp [lookup_cons, hk, h2, ih, Ne.symm hk]
        · simp [lookup_cons, hk, h2, h3, ih, Ne.symm hk]

lemma lookup_setEntry (r : Cell) (c c2 : String) (v : Value) :
    (setEntry r c v).lookup c2 = if c2 = c then some v else r.lookup c2 := by
  unfold setEntry
  by_cases hs : (r.lookup c).isSome
  · obtain ⟨w, hw⟩ := Option.isSome_iff_exists.mp hs
    simp [hs, lookup_map_replace, hw]
  · simp only [hs, if_false, Bool.false_eq_true]
    rw [List.lookup_append]
    by_cases h2 : c2 = c
    · subst h2
      simp only [Option.not_isSome_iff_eq_none] at hs
      simp [hs, List.lookup]
    · simp [List.lookup, h2, beq_eq_false_iff_ne.mpr h2]

lemma getVal_setEntry (r : Cell) (c c2 : String) (v : Value) :
    getVal (setEntry r c v) c2 = if c2 = c then v else getVal r c2 := by
  simp only [getVal, lookup_setEntry]
  by_cases h2 : c2 = c <;> simp [h2]

lemma setCol_rows_get (df : DataFrame) (c : String) (f : Cell → Value) (i : Nat) (r : Cell)
    (h : df.rows[i]? = some r) :
    (df.setCol c f).rows[i]? = some (setEntry r c (f r)) := by
  simp [DataFrame.setCol, List.getElem?_map, h]

/-- The parent column is untouched while its sub-fields are flattened. -/
lemma flattenSubs_get_parent (p : String) :
    ∀ (subs : List String) (df : DataFrame) (i : Nat) (r : Cell),
      df.rows[i]? = some r →
      ∃ r2, (flattenSubs df p subs).rows[i]? = some r2 ∧ getVal r2 p = getVal r p := by
  intro subs
  induction subs with
  | nil => exact fun df i r h => ⟨r, h, rfl⟩
  | cons s rest ih =>
    intro df i r h
    have h2 := setCol_rows_get df (p ++ "_" ++ s)
      (fun row => projectSub (getVal row p) s) i r h
    obtain ⟨r2, hr2, hv⟩ := ih _ i _ h2
    refine ⟨r2, by simpa [flattenSubs] using hr2, ?_⟩
    rw [hv, getVal_setEntry]
    simp [Ne.symm (parent_sub_ne p s)]

/-- Each flattened sub-column of a processed parent holds the projection
of the parent value the frame started with. -/
lemma flattenSubs_projects (p : String) :
    ∀ (subs : List String) (df : DataFrame) (i : Nat) (r : Cell) (sub : String),
      df.rows[i]? = some r →
      (sub ∈ subs ∨ getVal r (p ++ "_" ++ sub) = projectSub (getVal r p) sub) →
      ∃ r2, (flattenSubs df p subs).rows[i]? = some r2 ∧
        getVal r2 (p ++ "_" ++ sub) = projectSub (getVal r p) sub := by
  intro subs
  induction subs with
  | nil =>
    intro df i r sub h hyp
    rcases hyp with hmem | heq
    · cases hmem
    · exact ⟨r, h, heq⟩
  | cons s rest ih =>
    intro df i r sub h hyp
    have h2 := setCol_rows_get df (p ++ "_" ++ s)
      (fun row => projectSub (getVal row p) s) i r h
    set r1 := setEntry r (p ++ "_" ++ s) (projectSub (getVal r p) s) with hr1
    have hp1 : getVal r1 p = getVal r p := by
      rw [hr1, getVal_setEntry]
      simp [Ne.symm (parent_sub_ne p s)]
    have hstep : sub ∈ rest ∨ getVal r1 (p ++ "_" ++ sub) = projectSub (getVal r1 p) sub := by
      rcases hyp with hmem | heq
      · rcases List.mem_cons.mp hmem with hs | hrest
        · subst hs
          right
          rw [hr1, getVal_setEntry, hp1]
          simp
        · exact Or.inl hrest
      · by_cases hcol : p ++ "_" ++ sub = p ++ "_" ++ s
        · have hsub : sub = s := parent_sub_inj p sub s hcol
          subst hsub
          right
          rw [hr1, getVal_setEntry, hp1]
          simp
        · right
          rw [hr1, getVal_setEntry, hp1]
          simp only [hcol, if_false]
          exact heq
    obtain ⟨r2, hr2, hv⟩ := ih _ i r1 sub h2 hstep
    refine ⟨r2, by simpa [flattenSubs] using hr2, ?_⟩
    rw [hv, hp1]

/-- Flattening one parent leaves untouched every column it does not
generate. -/
lemma flattenSubs_get_other (parent : String) :
    ∀ (ss : List String) (df : DataFrame) (i : Nat) (r : Cell) (c : String),
      df.rows[i]? = some r →
      (∀ s ∈ ss, parent ++ "_" ++ s ≠ c) →
      ∃ r2, (flattenSubs df parent ss).rows[i]? = some r2 ∧ getVal r2 c = getVal r c := by
  intro ss
  induction ss with
  | nil => exact fun df i r c h _ => ⟨r, h, rfl⟩
  | cons s rest ih =>
    intro df i r c h hfresh
    have h2 := setCol_rows_get df (parent ++ "_" ++ s)
      (fun row => projectSub (getVal row parent) s) i r h
    obtain ⟨r2, hr2, hv⟩ := ih _ i _ c h2
      (fun s2 hs2 => hfresh s2 (List.mem_cons_of_mem _ hs2))
    refine ⟨r2, by simpa [flattenSubs] using hr2, ?_⟩
    rw [hv, getVal_setEntry]
    simp [Ne.symm (hfresh s (List.mem_cons_self _ _))]

/-- The flatten steps only ever add columns. -/
lemma flattenSubs_cols_keep (parent : String) :
    ∀ (ss : List String) (df : DataFrame) (c : String),
      c ∈ df.cols → c ∈ (flattenSubs df parent ss).cols := by
  intro ss
  induction ss with
  | nil => exact fun df c h => h
  | cons s rest ih =>
    intro df c h
    simp only [flattenSubs]
    apply ih
    simp only [DataFrame.setCol]
    by_cases hc : (parent ++ "_" ++ s) ∈ df.cols <;> simp [hc, h]

lemma flattenOne_of_mem (df : DataFrame) (q : String) (ss : List String)
    (h : q ∈ df.cols) : flattenOne df q ss = flattenSubs df q ss := by
  have hc : df.cols.contains q = true := by simpa using h
  unfold flattenOne
  rw [if_pos hc]

lemma flattenOne_cols_keep (df : DataFrame) (q : String) (ss : List String) (c : String)
    (h : c ∈ df.cols) : c ∈ (flattenOne df q ss).cols := by
  by_cases hq : q ∈ df.cols
  · have heq : flattenOne df q ss = flattenSubs df q ss := by simp [flattenOne, hq]
    rw [heq]
    exact flattenSubs_cols_keep q ss df c h
  · have heq : flattenOne df q ss = df := by simp [flattenOne, hq]
    rw [heq]
    exact h

lemma flatten_fold_cols_keep :
    ∀ (entries : List (String × List String)) (df : DataFrame) (c : String),
      c ∈ df.cols →
      c ∈ (entries.foldl (fun acc pc => flattenOne acc pc.1 pc.2) df).cols := by
  intro entries
  induction entries with
  | nil => exact fun df c h => h
  | cons e rest ih =>
    intro df c h
    simp only [List.foldl_cons]
    exact ih _ c (flattenOne_cols_keep df e.1 e.2 c h)

/-- A fold over declared entries none of which generates the column `p`
leaves the value of `p` untouched in every row. -/
lemma flatten_fold_keeps_col (p : String) :
    ∀ (entries : List (String × List String)) (df : DataFrame) (i : Nat) (r : Cell),
      (∀ e ∈ entries, ∀ s ∈ e.2, e.1 ++ "_" ++ s ≠ p) →
      df.rows[i]? = some r →
      ∃ r1, (entries.foldl (fun acc pc => flattenOne acc pc.1 pc.2) df).rows[i]? = some r1 ∧
        getVal r1 p = getVal r p := by
  intro entries
  induction entries with
  | nil => exact fun df i r _ h => ⟨r, h, rfl⟩
  | cons e rest ih =>
    intro df i r hfresh h
    simp only [List.foldl_cons]
    by_cases hq : e.1 ∈ df.cols
    · have heq : flattenOne df e.1 e.2 = flattenSubs df e.1 e.2 := by
        simp [flattenOne, hq]
      rw [heq]
      obtain ⟨r1, hr1, hv1⟩ := flattenSubs_get_other e.1 e.2 df i r p h
        (fun s hs => hfresh e (List.mem_cons_self _ _) s hs)
      obtain ⟨r2, hr2, hv2⟩ := ih _ i r1
        (fun e2 he2 => hfresh e2 (List.mem_cons_of_mem _ he2)) hr1
      exact ⟨r2, hr2, by rw [hv2, hv1]⟩
    · have heq : flattenOne df e.1 e.2 = df := by simp [flattenOne, hq]
      rw [heq]
      exact ih _ i r (fun e2 he2 => hfresh e2 (List.mem_cons_of_mem _ he2)) h

/-- Once the projection column of a malformed parent holds null, the
remaining declared entries keep it null: they either write other
columns, or re-project the same malformed parent. -/
lemma flatten_fold_keeps_null (p sub : String) (v : Value)
    (hv : ∀ fs, v ≠ Value.vObj fs) :
    ∀ (entries : List (String × List String)) (df : DataFrame) (i : Nat) (r : Cell),
      (∀ e ∈ entries, ∀ s ∈ e.2, e.1 ++ "_" ++ s ≠ p) →
      (∀ e ∈ entries, ∀ s ∈ e.2, e.1 ++ "_" ++ s = p ++ "_" ++ sub → e.1 = p) →
      df.rows[i]? = some r →
      getVal r p = v →
      getVal r (p ++ "_" ++ sub) = Value.vNull →
      ∃ r2, (entries.foldl (fun acc pc => flattenOne acc pc.1 pc.2) df).rows[i]? = some r2 ∧
        getVal r2 p = v ∧ getVal r2 (p ++ "_" ++ sub) = Value.vNull := by
  have hpn : projectSub v sub = Value.vNull := by
    cases hv2 : v with
    | vObj fs => exact absurd hv2 (hv fs)
    | vNull => simp [projectSub]
    | vStr s => simp [projectSub]
    | vInt n => simp [projectSub]
    | vBool b => simp [projectSub]
    | vList xs => simp [projectSub]
  intro entries
  induction entries with
  | nil => exact fun df i r _ _ h hp hn => ⟨r, h, hp, hn⟩
  | cons e rest ih =>
    intro df i r hfp hfc h hp hn
    simp only [List.foldl_cons]
    by_cases hq : e.1 ∈ df.cols
    · have heq : flattenOne df e.1 e.2 = flattenSubs df e.1 e.2 := by
        simp [flattenOne, hq]
      rw [heq]
      by_cases hqp : e.1 = p
      · rw [hqp]
        have hproj : getVal r (p ++ "_" ++ sub) = projectSub (getVal r p) sub := by
          rw [hn, hp, hpn]
        obtain ⟨r2, hr2, hv2⟩ := flattenSubs_projects p e.2 df i r sub h (Or.inr hproj)
        obtain ⟨r2b, hr2b, hv2b⟩ := flattenSubs_get_parent p e.2 df i r h
        have hab : r2 = r2b := by
          injection hr2.symm.trans hr2b
        subst hab
        exact ih _ i r2
          (fun e2 he2 => hfp e2 (List.mem_cons_of_mem _ he2))
          (fun e2 he2 => hfc e2 (List.mem_cons_of_mem _ he2))
          hr2 (by rw [hv2b, hp]) (by rw [hv2, hp, hpn])
      · obtain ⟨ra, hra, hva⟩ := flattenSubs_get_other e.1 e.2 df i r p h
          (fun s hs => hfp e (List.mem_cons_self _ _) s hs)
        obtain ⟨rb, hrb, hvb⟩ := flattenSubs_get_other e.1 e.2 df i r (p ++ "_" ++ sub) h
          (fun s hs hcontra => hqp (hfc e (List.mem_cons_self _ _) s hs hcontra))
        have hab : ra = rb := by
          injection hra.symm.trans hrb
        subst hab
        exact ih _ i ra
          (fun e2 he2 => hfp e2 (List.mem_cons_of_mem _ he2))
          (fun e2 he2 => hfc e2 (List.mem_cons_of_mem _ he2))
          hra (by rw [hva, hp]) (by rw [hvb, hn])
    · have heq : flattenOne df e.1 e.2 = df := by simp [flattenOne, hq]
      rw [heq]
      exact ih _ i r
        (fun e2 he2 => hfp e2 (List.mem_cons_of_mem _ he2))
        (fun e2 he2 => hfc e2 (List.mem_cons_of_mem _ he2))
        h hp hn

/-- C6: for every page and every declared nested field of the
descriptor's nested map, a parent value that is not a structured object
projects to null in each flattened sub-column; the transformation is a
total function, so it cannot raise. The two freshness hypotheses say
the descriptor's generated column names do not collide with the parent
or, across parents, with the projected column - decidable facts that
hold for every shipped descriptor. -/
theorem flatten_malformed_null (df : DataFrame) (nested : List (String × List String))
    (p : String) (subs : List String) (i : Nat) (r : Cell) (sub : String)
    (hentry : (p, subs) ∈ nested)
    (hr : df.rows[i]? = some r)
    (hp : p ∈ df.cols)
    (hsub : sub ∈ subs)
    (hfreshp : ∀ e ∈ nested, ∀ s ∈ e.2, e.1 ++ "_" ++ s ≠ p)
    (hfreshc : ∀ e ∈ nested, ∀ s ∈ e.2, e.1 ++ "_" ++ s = p ++ "_" ++ sub → e.1 = p)
    (hmal : ∀ fs, getVal r p ≠ Value.vObj fs) :
    ∃ r2, (flatten_nested_fields df nested).rows[i]? = some r2 ∧
      getVal r2 (p ++ "_" ++ sub) = Value.vNull := by
  have hne : df.rows.isEmpty = false := by
    cases hrows : df.rows with
    | nil => rw [hrows] at hr; simp at hr
    | cons a l => simp [hrows]
  have hnne : nested.isEmpty = false := by
    cases nested with
    | nil => cases hentry
    | cons a l => simp
  have hpn : projectSub (getVal r p) sub = Value.vNull := by
    cases hv : getVal r p with
    | vObj fs => exact absurd hv (hmal fs)
    | vNull => simp [projectSub]
    | vStr s => simp [projectSub]
    | vInt n => simp [projectSub]
    | vBool b => simp [projectSub]
    | vList xs => simp [projectSub]
  obtain ⟨l1, l2, hsplit⟩ := List.append_of_mem hentry
  subst hsplit
  unfold flatten_nested_fields
  simp only [hne, hnne, Bool.or_false, Bool.false_eq_true, if_false,
    List.foldl_append, List.foldl_cons]
  obtain ⟨r1, hr1, hv1⟩ := flatten_fold_keeps_col p l1 df i r
    (fun e he s hs => hfreshp e (List.mem_append_left _ he) s hs) hr
  have hp1 : p ∈ (l1.foldl (fun acc pc => flattenOne acc pc.1 pc.2) df).cols :=
    flatten_fold_cols_keep l1 df p hp
  rw [flattenOne_of_mem _ _ _ hp1]
  obtain ⟨r2, hr2, hv2⟩ := flattenSubs_projects p subs
    (l1.foldl (fun acc pc => flattenOne acc pc.1 pc.2) df) i r1 sub hr1 (Or.inl hsub)
  obtain ⟨r2b, hr2b, hv2b⟩ := flattenSubs_get_parent p subs
    (l1.foldl (fun acc pc => flattenOne acc pc.1 pc.2) df) i r1 hr1
  have hab : r2 = r2b := by
    injection hr2.symm.trans hr2b
  subst hab
  obtain ⟨rf, hrf, hvfp, hvfn⟩ := flatten_fold_keeps_null p sub (getVal r p) hmal l2
    (flattenSubs (l1.foldl (fun acc pc => flattenOne acc pc.1 pc.2) df) p subs) i r2
    (fun e he s hs =>
      hfreshp e (List.mem_append_right _ (List.mem_cons_of_mem _ he)) s hs)
    (fun e he s hs hc =>
      hfreshc e (List.mem_append_right _ (List.mem_cons_of_mem _ he)) s hs hc)
    hr2 (by rw [hv2b, hv1]) (by rw [hv2, hv1, hpn])
  exact ⟨rf, hrf, hvfn⟩

/-- C6 witness at the three-entry nested map of the operator-share
descriptor (delegation_manager.py lines 132-136): a page whose `staker`
cell is the bare string "0xB" projects null into `staker_id` while the
other declared parents flatten around it. -/
theorem flatten_malformed_null_witness :
    ∃ r2, (flatten_nested_fields
        ⟨["operator", "staker", "strategy"],
         [[("operator", Value.vObj [("id", Value.vStr "0xA"), ("address", Value.vStr "0xA")]),
           ("staker", Value.vStr "0xB"),
           ("strategy", Value.vObj [("id", Value.vStr "0xC"), ("address", Value.vStr "0xC")])]]⟩
        [("operator", ["id", "address"]), ("staker", ["id", "address"]),
         ("strategy", ["id", "address"])]).rows[0]? = some r2 ∧
      getVal r2 ("staker" ++ "_" ++ "id") = Value.vNull :=
  flatten_malformed_null
    ⟨["operator", "staker", "strategy"],
     [[("operator", Value.vObj [("id", Value.vStr "0xA"), ("address", Value.vStr "0xA")]),
       ("staker", Value.vStr "0xB"),
       ("strategy", Value.vObj [("id", Value.vStr "0xC"), ("address", Value.vStr "0xC")])]]⟩
    [("operator", ["id", "address"]), ("staker", ["id", "address"]),
     ("strategy", ["id", "address"])]
    "staker" ["id", "address"] 0
    [("operator", Value.vObj [("id", Value.vStr "0xA"), ("address", Value.vStr "0xA")]),
     ("staker", Value.vStr "0xB"),
     ("strategy", Value.vObj [("id", Value.vStr "0xC"), ("address", Value.vStr "0xC")])]
    "id"
    (by decide) rfl (by decide) (by decide) (by decide) (by decide)
    (fun fs h => by
      rw [show getVal
          [("operator", Value.vObj [("id", Value.vStr "0xA"), ("address", Value.vStr "0xA")]),
           ("staker", Value.vStr "0xB"),
           ("strategy", Value.vObj [("id", Value.vStr "0xC"), ("address", Value.vStr "0xC")])]
          "staker" = Value.vStr "0xB" from rfl] at h
      exact Value.noConfusion h)

/-- C3: the cursor filter selects exactly the records strictly after the
cursor in the composite (block, log) order; with no logIndex it degrades
to block-only filtering; a record with the cursor's block and a greater
logIndex is selected; and `build_query` merges exactly this filter when
given only a cursor. -/
theorem cursor_filter_composite :
    (∀ (b l : Int) (r : FetchRec),
        matchesAll r (build_cursor_filter (some ⟨b, some l⟩)) = true ↔
          (r.block > b ∨ (r.block = b ∧ r.log > l)))
  ∧ (∀ (b : Int) (r : FetchRec),
        matchesAll r (build_cursor_filter (some ⟨b, none⟩)) = true ↔ r.block > b)
  ∧ (matchesAll ⟨"tx1-1", 100, 1⟩ (build_cursor_filter (some ⟨100, some 0⟩)) = true)
  ∧ (∀ c, build_query_filters none none none c = build_cursor_filter c) := by
  refine ⟨?_, ?_, ?_, ?_⟩
  · intro b l r
    simp [build_cursor_filter, matchesAll, matchesClause, matchesScalar]
  · intro b r
    simp [build_cursor_filter, matchesAll, matchesClause, matchesScalar]
  · decide
  · intro c
    simp [build_query_filters]

/-! ### Loader lemmas -/

lemma loadGo_partition (rowError : EventRow → Bool) :
    ∀ (df : List EventRow) (st : Store) (rep : LoadReport),
      (loadGo rowError st rep df).2.inserted + (loadGo rowError st rep df).2.updated
        + (loadGo rowError st rep df).2.skipped + (loadGo rowError st rep df).2.errors
      = rep.inserted + rep.updated + rep.skipped + rep.errors + df.length := by
  intro df
  induction df with
  | nil => intro st rep; simp [loadGo]
  | cons r rest ih =>
    intro st rep
    by_cases h : rowError r
    · simp only [loadGo, h, if_true]
      have := ih st { rep with errors := rep.errors + 1 }
      simp only [this]
      simp [List.length_cons]
      omega
    · simp only [loadGo, h, if_false, Bool.false_eq_true]
      cases hact : (upsertRow st r).2 with
      | inserted =>
        have := ih (upsertRow st r).1 (rep.bump (upsertRow st r).2)
        rw [hact] at this
        rw [this]
        simp [LoadReport.bump]
        omega
      | updated =>
        have := ih (upsertRow st r).1 (rep.bump (upsertRow st r).2)
        rw [hact] at this
        rw [this]
        simp [LoadReport.bump]
        omega
      | skipped =>
        have := ih (upsertRow st r).1 (rep.bump (upsertRow st r).2)
        rw [hact] at this
        rw [this]
        simp [LoadReport.bump]
        omega

lemma loadGo_errors_count (rowError : EventRow → Bool) :
    ∀ (df : List EventRow) (st : Store) (rep : LoadReport),
      (loadGo rowError st rep df).2.errors = rep.errors + df.countP (fun r => rowError r) := by
  intro df
  induction df with
  | nil => intro st rep; simp [loadGo]
  | cons r rest ih =>
    intro st rep
    by_cases h : rowError r
    · simp only [loadGo, h, if_true]
      rw [ih]
      simp [List.countP_cons, h]
      omega
    · simp only [loadGo, h, if_false, Bool.false_eq_true]
      cases hact : (upsertRow st r).2 with
      | inserted =>
        have := ih (upsertRow st r).1 (rep.bump (upsertRow st r).2)
        rw [hact] at this
        rw [this]
        simp [LoadReport.bump, List.countP_cons, h]
      | updated =>
        have := ih (upsertRow st r).1 (rep.bump (upsertRow st r).2)
        rw [hact] at this
        rw [this]
        simp [LoadReport.bump, List.countP_cons, h]
      | skipped =>
        have := ih (upsertRow st r).1 (rep.bump (upsertRow st r).2)
        rw [hact] at this
        rw [this]
        simp [LoadReport.bump, List.countP_cons, h]

/-- The four counts of any load partition the page (helper shared by
several developments below). -/
lemma load_events_partition (rowError : EventRow → Bool) (st : Store) (df : List EventRow) :
    (load_events rowError st df).2.inserted + (load_events rowError st df).2.updated
      + (load_events rowError st df).2.skipped + (load_events rowError st df).2.errors
    = df.length := by
  unfold load_events
  by_cases h : df.isEmpty
  · have : df = [] := List.isEmpty_iff.mp h
    subst this
    simp
  · simp only [h, if_false, Bool.false_eq_true]
    have := loadGo_partition rowError df st ⟨0, 0, 0, 0⟩
    simpa using this

/-- C10: the four counts of a load report partition the input page, and
an empty page returns all-zero counts without touching the store. -/
theorem load_report_partition (rowError : EventRow → Bool) (st : Store) (df : List EventRow) :
    ((load_events rowError st df).2.inserted + (load_events rowError st df).2.updated
      + (load_events rowError st df).2.skipped + (load_events rowError st df).2.errors
      = df.length)
  ∧ load_events rowError st [] = (st, ⟨0, 0, 0, 0⟩) := by
  constructor
  · unfold load_events
    by_cases h : df.isEmpty
    · have : df = [] := List.isEmpty_iff.mp h
      subst this
      simp
    · simp only [h, if_false, Bool.false_eq_true]
      have := loadGo_partition rowError df st ⟨0, 0, 0, 0⟩
      simpa using this
  · simp [load_events]

/-- C4: a page with one raising row among N verified rows yields N
processed rows and exactly one error; the loader returns the aggregate
report (it is a total function, so it never raises). -/
theorem row_isolation (rowError : EventRow → Bool) (st : Store)
    (xs ys : List EventRow) (bad : EventRow)
    (h1 : ∀ r ∈ xs, rowError r = false)
    (h2 : rowError bad = true)
    (h3 : ∀ r ∈ ys, rowError r = false) :
    (load_events rowError st (xs ++ bad :: ys)).2.errors = 1
  ∧ (load_events rowError st (xs ++ bad :: ys)).2.inserted
      + (load_events rowError st (xs ++ bad :: ys)).2.updated
      + (load_events rowError st (xs ++ bad :: ys)).2.skipped
    = xs.length + ys.length := by
  have hne : (xs ++ bad :: ys).isEmpty = false := by
    cases xs <;> simp
  have hcount : (xs ++ bad :: ys).countP (fun r => rowError r) = 1 := by
    rw [List.countP_append, List.countP_cons]
    have hx : xs.countP (fun r => rowError r) = 0 :=
      List.countP_eq_zero.mpr (by intro r hr; simp [h1 r hr])
    have hy : ys.countP (fun r => rowError r) = 0 :=
      List.countP_eq_zero.mpr (by intro r hr; simp [h3 r hr])
    simp [hx, hy, h2]
  have herr : (load_events rowError st (xs ++ bad :: ys)).2.errors = 1 := by
    unfold load_events
    simp only [hne, if_false, Bool.false_eq_true]
    rw [loadGo_errors_count]
    simpa using hcount
  refine ⟨herr, ?_⟩
  have hpart := (load_report_partition rowError st (xs ++ bad :: ys)).1
  rw [herr] at hpart
  simp only [List.length_append, List.length_cons] at hpart
  omega

/-- C4 witness at a three-row page whose middle row raises. -/
theorem row_isolation_witness :
    (∀ r ∈ [({ id := "a", block_number := 1, log_index := some 0,
               created_at := 5, updated_at := 5, data := [] } : EventRow)],
        (fun q => q.id == "bad") r = false)
  ∧ (fun (q : EventRow) => q.id == "bad")
      { id := "bad", block_number := 2, log_index := some 0,
        created_at := 5, updated_at := 5, data := [] } = true
  ∧ (∀ r ∈ [({ id := "c", block_number := 3, log_index := some 0,
               created_at := 5, updated_at := 5, data := [] } : EventRow)],
        (fun q => q.id == "bad") r = false)
  ∧ ((load_events (fun q => q.id == "bad") []
        ([{ id := "a", block_number := 1, log_index := some 0,
            created_at := 5, updated_at := 5, data := [] }]
          ++ { id := "bad", block_number := 2, log_index := some 0,
               created_at := 5, updated_at := 5, data := [] }
            :: [{ id := "c", block_number := 3, log_index := some 0,
                  created_at := 5, updated_at := 5, data := [] }])).2.errors = 1) := by
  refine ⟨?_, ?_, ?_, ?_⟩
  · intro r hr
    rw [List.mem_singleton.mp hr]
    rfl
  · rfl
  · intro r hr
    rw [List.mem_singleton.mp hr]
    rfl
  · exact (row_isolation (fun q => q.id == "bad") []
      [{ id := "a", block_number := 1, log_index := some 0,
         created_at := 5, updated_at := 5, data := [] }]
      [{ id := "c", block_number := 3, log_index := some 0,
         created_at := 5, updated_at := 5, data := [] }]
      { id := "bad", block_number := 2, log_index := some 0,
        created_at := 5, updated_at := 5, data := [] }
      (by intro r hr; rw [List.mem_singleton.mp hr]; rfl)
      rfl
      (by intro r hr; rw [List.mem_singleton.mp hr]; rfl)).1

/-! ### Store lookup lemmas for the upsert statement -/

lemma findRow_append_single (st : Store) (r : EventRow) (h : findRow st r.id = none) :
    findRow (st ++ [r]) r.id = some r := by
  unfold findRow at *
  rw [List.find?_append, h]
  simp

lemma findRow_append_other (st : Store) (r : EventRow) (j : String) (hj : j ≠ r.id) :
    findRow (st ++ [r]) j = findRow st j := by
  unfold findRow
  rw [List.find?_append]
  simp [beq_eq_false_iff_ne.mpr (Ne.symm hj)]

lemma findRow_replace_self (st : Store) (i : String) (w : EventRow) (hw : w.id = i)
    (h : (findRow st i).isSome) :
    findRow (st.map (fun q => if q.id = i then w else q)) i = some w := by
  unfold findRow at *
  induction st with
  | nil => simp at h
  | cons q tl ih =>
    by_cases hq : q.id = i
    · simp only [List.map_cons, if_pos hq]
      rw [List.find?_cons_of_pos _ (by simp [hw])]
    · simp only [List.map_cons, if_neg hq]
      rw [List.find?_cons_of_neg _ (by simp [hq])] at h
      rw [List.find?_cons_of_neg _ (by simp [hq])]
      exact ih h

lemma findRow_replace_other (st : Store) (i : String) (w : EventRow) (hw : w.id = i)
    (j : String) (hj : j ≠ i) :
    findRow (st.map (fun q => if q.id = i then w else q)) j = findRow st j := by
  unfold findRow
  induction st with
  | nil => simp
  | cons q tl ih =>
    by_cases hq : q.id = i
    · simp only [List.map_cons, if_pos hq]
      rw [List.find?_cons_of_neg _ (by simp [hw, Ne.symm hj]),
          List.find?_cons_of_neg _ (by simp [hq, Ne.symm hj])]
      exact ih
    · simp only [List.map_cons, if_neg hq]
      by_cases hqj : q.id = j
      · rw [List.find?_cons_of_pos _ (by simp [hqj]),
            List.find?_cons_of_pos _ (by simp [hqj])]
      · rw [List.find?_cons_of_neg _ (by simp [hqj]),
            List.find?_cons_of_neg _ (by simp [hqj])]
        exact ih

/-- After an upsert, the row's key maps to a stored row carrying the
incoming modification marker, in all three outcomes. -/
lemma upsert_self_stamp (st : Store) (r : EventRow) :
    ∃ w, findRow (upsertRow st r).1 r.id = some w ∧ w.updated_at = r.updated_at := by
  unfold upsertRow
  cases h : findRow st r.id with
  | none =>
    exact ⟨r, findRow_append_single st r h, rfl⟩
  | some old =>
    by_cases he : old.updated_at = r.updated_at
    · simp only [if_pos he]
      exact ⟨old, h, he⟩
    · simp only [if_neg he]
      refine ⟨{ r with created_at := old.created_at }, ?_, rfl⟩
      exact findRow_replace_self st r.id _ rfl (by rw [h]; rfl)

/-- An upsert leaves every other key's stored row unchanged. -/
lemma upsert_other (st : Store) (r : EventRow) (j : String) (hj : j ≠ r.id) :
    findRow (upsertRow st r).1 j = findRow st j := by
  unfold upsertRow
  cases h : findRow st r.id with
  | none => exact findRow_append_other st r j hj
  | some old =>
    by_cases he : old.updated_at = r.updated_at
    · simp [he]
    · simp only [if_neg he]
      exact findRow_replace_other st r.id { r with created_at := old.created_at } rfl j hj

/-- The `WHERE updated_at <> excluded.updated_at` gate: an incoming row
whose modification marker equals the stored one writes nothing. -/
lemma upsert_skip_of_stamp (st : Store) (r : EventRow) (old : EventRow)
    (h : findRow st r.id = some old) (he : old.updated_at = r.updated_at) :
    upsertRow st r = (st, RowAction.skipped) := by
  unfold upsertRow
  rw [h]
  simp [he]

/-- A stored row stamped `t` stays stamped `t` through a load whose page
is entirely stamped `t`. -/
lemma loadGo_keeps_stamp (rowError : EventRow → Bool) (t : Int) :
    ∀ (df : List EventRow) (st : Store) (rep : LoadReport) (i : String),
      (∀ r ∈ df, r.updated_at = t) →
      (∃ q, findRow st i = some q ∧ q.updated_at = t) →
      ∃ q2, findRow (loadGo rowError st rep df).1 i = some q2 ∧ q2.updated_at = t := by
  intro df
  induction df with
  | nil =>
    intro st rep i _ hq
    simpa [loadGo] using hq
  | cons x rest ih =>
    intro st rep i hstamp hq
    by_cases hx : rowError x
    · simp only [loadGo, hx, if_true]
      exact ih _ _ i (fun r hr => hstamp r (List.mem_cons_of_mem _ hr)) hq
    · simp only [loadGo, hx, if_false, Bool.false_eq_true]
      apply ih _ _ i (fun r hr => hstamp r (List.mem_cons_of_mem _ hr))
      by_cases hxi : i = x.id
      · subst hxi
        obtain ⟨w, hw1, hw2⟩ := upsert_self_stamp st x
        exact ⟨w, hw1, by rw [hw2]; exact hstamp x (List.mem_cons_self _ _)⟩
      · rw [upsert_other st x i hxi]
        exact hq

/-- After loading a page stamped `t`, every successfully prepared row's
key maps to a stored row stamped `t`. -/
lemma loadGo_sets_stamp (rowError : EventRow → Bool) (t : Int) :
    ∀ (df : List EventRow) (st : Store) (rep : LoadReport) (r : EventRow),
      (∀ y ∈ df, y.updated_at = t) → r ∈ df → rowError r = false →
      ∃ q, findRow (loadGo rowError st rep df).1 r.id = some q ∧ q.updated_at = t := by
  intro df
  induction df with
  | nil =>
    intro st rep r _ hr
    cases hr
  | cons x rest ih =>
    intro st rep r hstamp hr hre
    by_cases hx : rowError x
    · simp only [loadGo, hx, if_true]
      rcases List.mem_cons.mp hr with hrx | hrr
      · exact absurd hx (by rw [← hrx, hre]; simp)
      · exact ih _ _ r (fun y hy => hstamp y (List.mem_cons_of_mem _ hy)) hrr hre
    · simp only [loadGo, hx, if_false, Bool.false_eq_true]
      rcases List.mem_cons.mp hr with hrx | hrr
      · subst hrx
        obtain ⟨w, hw1, hw2⟩ := upsert_self_stamp st r
        exact loadGo_keeps_stamp rowError t rest _ _ r.id
          (fun y hy => hstamp y (List.mem_cons_of_mem _ hy))
          ⟨w, hw1, by rw [hw2]; exact hstamp r (List.mem_cons_self _ _)⟩
      · exact ih _ _ r (fun y hy => hstamp y (List.mem_cons_of_mem _ hy)) hrr hre

/-- A page every surviving row of which already matches the stored
modification marker is entirely skipped, with the store untouched. -/
lemma loadGo_all_skip (rowError : EventRow → Bool) :
    ∀ (df : List EventRow) (st : Store) (rep : LoadReport),
      (∀ r ∈ df, rowError r = false →
        ∃ q, findRow st r.id = some q ∧ q.updated_at = r.updated_at) →
      loadGo rowError st rep df =
        (st, ⟨rep.inserted, rep.updated,
              rep.skipped + df.countP (fun r => !rowError r),
              rep.errors + df.countP (fun r => rowError r)⟩) := by
  intro df
  induction df with
  | nil =>
    intro st rep _
    simp [loadGo]
  | cons x rest ih =>
    intro st rep h
    by_cases hx : rowError x
    · simp only [loadGo, hx, if_true]
      rw [ih st _ (fun r hr hre => h r (List.mem_cons_of_mem _ hr) hre)]
      simp [List.countP_cons, hx]
      omega
    · have hxf : rowError x = false := by simpa using hx
      have hq := h x (List.mem_cons_self _ _) hxf
      obtain ⟨q, hq1, hq2⟩ := hq
      simp only [loadGo, hx, if_false, Bool.false_eq_true]
      rw [upsert_skip_of_stamp st x q hq1 hq2]
      rw [ih st _ (fun r hr hre => h r (List.mem_cons_of_mem _ hr) hre)]
      simp [List.countP_cons, hxf, LoadReport.bump]
      omega

/-- C1: loading an identical page (stamped with one modification instant,
as `add_timestamps` stamps it) a second time leaves the stored state
unchanged and reports inserted = 0 and updated = 0: each surviving row is
skipped with zero writes and each raising row errors again. -/
theorem ingest_idempotent (rowError : EventRow → Bool) (s0 : Store)
    (df : List EventRow) (t : Int)
    (hstamp : ∀ r ∈ df, r.updated_at = t) :
    load_events rowError (load_events rowError s0 df).1 df
      = ((load_events rowError s0 df).1,
         ⟨0, 0, df.countP (fun r => !rowError r), df.countP (fun r => rowError r)⟩) := by
  by_cases hemp : df.isEmpty
  · have : df = [] := List.isEmpty_iff.mp hemp
    subst this
    simp [load_events]
  · unfold load_events
    simp only [hemp, if_false, Bool.false_eq_true]
    have hyp : ∀ r ∈ df, rowError r = false →
        ∃ q, findRow (loadGo rowError s0 ⟨0, 0, 0, 0⟩ df).1 r.id = some q
          ∧ q.updated_at = r.updated_at := by
      intro r hr hre
      obtain ⟨q, hq1, hq2⟩ := loadGo_sets_stamp rowError t df s0 ⟨0, 0, 0, 0⟩ r hstamp hr hre
      exact ⟨q, hq1, by rw [hq2, hstamp r hr]⟩
    rw [loadGo_all_skip rowError df _ ⟨0, 0, 0, 0⟩ hyp]
    simp

/-- C1 witness at a two-row page stamped 5. -/
theorem ingest_idempotent_witness :
    (∀ r ∈ [sampleRow "a" 100, sampleRow "b" 101], r.updated_at = 5)
  ∧ (load_events (fun _ => false)
        (load_events (fun _ => false) [] [sampleRow "a" 100, sampleRow "b" 101]).1
        [sampleRow "a" 100, sampleRow "b" 101]
      = ((load_events (fun _ => false) [] [sampleRow "a" 100, sampleRow "b" 101]).1,
         ⟨0, 0, ([sampleRow "a" 100, sampleRow "b" 101].countP (fun r => !(fun _ => false) r)),
          ([sampleRow "a" 100, sampleRow "b" 101].countP (fun r => (fun _ => false) r))⟩)) :=
  ⟨by decide,
   ingest_idempotent (fun _ => false) [] [sampleRow "a" 100, sampleRow "b" 101] 5 (by decide)⟩

/-- C8: the loader classifies a written row as inserted exactly when the
post-write creation marker equals the modification marker; a fresh first
write of a stamped row counts as inserted; a conflicting re-write whose
incoming modification marker differs from the stored markers counts as
updated and preserves the original creation marker. -/
theorem upsert_classification :
    (∀ (st : Store) (r : EventRow),
        (upsertRow st r).2 ≠ RowAction.skipped →
        ∃ w, findRow (upsertRow st r).1 r.id = some w ∧
          ((upsertRow st r).2 = RowAction.inserted ↔ w.created_at = w.updated_at))
  ∧ (∀ (st : Store) (r : EventRow),
        findRow st r.id = none → r.created_at = r.updated_at →
        (upsertRow st r).2 = RowAction.inserted)
  ∧ (∀ (st : Store) (r old : EventRow),
        findRow st r.id = some old →
        old.updated_at ≠ r.updated_at →
        old.created_at ≠ r.updated_at →
        (upsertRow st r).2 = RowAction.updated ∧
        ∃ w, findRow (upsertRow st r).1 r.id = some w ∧ w.created_at = old.created_at) := by
  refine ⟨?_, ?_, ?_⟩
  · intro st r _
    unfold upsertRow
    cases h : findRow st r.id with
    | none =>
      refine ⟨r, findRow_append_single st r h, ?_⟩
      unfold classify
      by_cases he : r.created_at = r.updated_at <;> simp [he]
    | some old =>
      by_cases he : old.updated_at = r.updated_at
      · simp only [if_pos he]
        refine ⟨old, h, ?_⟩
        constructor
        · intro hab
          cases hab
        · intro hab
          exfalso
          revert hab
          unfold upsertRow at *
          simp_all
      · simp only [if_neg he]
        refine ⟨{ r with created_at := old.created_at },
          findRow_replace_self st r.id _ rfl (by rw [h]; rfl), ?_⟩
        unfold classify
        by_cases hc : old.created_at = r.updated_at <;> simp [hc]
  · intro st r h he
    unfold upsertRow
    rw [h]
    simp [classify, he]
  · intro st r old h he hc
    unfold upsertRow
    rw [h]
    simp only [if_neg he]
    refine ⟨by simp [classify, hc], { r with created_at := old.created_at },
      findRow_replace_self st r.id _ rfl (by rw [h]; rfl), rfl⟩

/-- C8 witness: a fresh stamped write classifies as inserted; a
conflicting re-write with a later stamp classifies as updated. -/
theorem upsert_classification_witness :
    ((upsertRow [] (sampleRow "a" 1)).2 = RowAction.inserted)
  ∧ ((upsertRow [sampleRow "a" 1] { sampleRow "a" 1 with updated_at := 9 }).2
        = RowAction.updated) :=
  ⟨upsert_classification.2.1 [] (sampleRow "a" 1) rfl rfl,
   (upsert_classification.2.2 [sampleRow "a" 1] { sampleRow "a" 1 with updated_at := 9 }
      (sampleRow "a" 1) rfl (by decide) (by decide)).1⟩

/-! ### Entity-manager lemmas -/

lemma upsertSimpleGo_skipped (fails : String → Bool) (now : Int) :
    ∀ (ids : List String) (st : EStore) (i u s : Nat),
      (upsertSimpleGo fails now st i u s ids).2.2.2 = s + ids.countP (fun x => fails x) := by
  intro ids
  induction ids with
  | nil => intro st i u s; simp [upsertSimpleGo]
  | cons e rest ih =>
    intro st i u s
    by_cases hf : fails e
    · simp only [upsertSimpleGo, hf, if_true]
      rw [ih]
      simp [List.countP_cons, hf]
      omega
    · simp only [upsertSimpleGo, hf, if_false, Bool.false_eq_true]
      cases hl : st.lookup e with
      | none =>
        rw [ih]
        simp [List.countP_cons, hf]
      | some old =>
        by_cases hc : old.created_at = now
        · simp only [hc, if_true]
          rw [ih]
          simp [List.countP_cons, hf]
        · simp only [hc, if_false]
          rw [ih]
          simp [List.countP_cons, hf]

lemma dict3_lookup_skipped (i u s : Nat) : (dict3 i u s).lookup "skipped" = some s := by
  unfold dict3
  rw [lookup_cons, if_neg (by decide), lookup_cons, if_neg (by decide),
      lookup_cons, if_pos rfl]

/-- C7 (amended): the event-row load report carries all four outcome
categories with a failed row write counted under `errors`; the entity
upserts return only the three categories inserted, updated, skipped, and
count a failed individual write under `skipped`. -/
theorem upsert_outcome_keys :
    (∀ (e : EventRow → Bool) (st : Store) (df : List EventRow),
        (load_events e st df).2.toDict.map Prod.fst
          = ["inserted", "updated", "skipped", "errors"])
  ∧ (∀ (e : EventRow → Bool) (st : Store) (df : List EventRow),
        (load_events e st df).2.errors = df.countP (fun r => e r))
  ∧ (∀ (fails : String → Bool) (now : Int) (st : EStore) (ids : List String),
        (upsert_simple fails now st ids).2.map Prod.fst
          = ["inserted", "updated", "skipped"])
  ∧ (∀ (fails : String → Bool) (now : Int) (st : EStore) (ids : List String),
        (upsert_simple fails now st ids).2.lookup "skipped"
          = some (ids.eraseDups.countP (fun x => fails x))) := by
  refine ⟨?_, ?_, ?_, ?_⟩
  · intro e st df
    rfl
  · intro e st df
    unfold load_events
    by_cases h : df.isEmpty
    · have : df = [] := List.isEmpty_iff.mp h
      subst this
      simp
    · simp only [h, if_false, Bool.false_eq_true]
      rw [loadGo_errors_count]
      simp
  · intro fails now st ids
    unfold upsert_simple
    by_cases h : ids.isEmpty <;> simp [h, dict3]
  · intro fails now st ids
    unfold upsert_simple
    by_cases h : ids.isEmpty
    · have : ids = [] := List.isEmpty_iff.mp h
      subst this
      rfl
    · simp only [h, if_false, Bool.false_eq_true]
      rw [dict3_lookup_skipped, upsertSimpleGo_skipped]
      simp

/-- C7 counterexample: one entity id whose write raises yields the
three-key dictionary with the failure counted under skipped; there is no
errored category in an entity upsert report. -/
theorem upsert_outcome_counterexample :
    (upsert_simple (fun _ => true) 0 [] ["0xA"]).2
        = [("inserted", 0), ("updated", 0), ("skipped", 1)]
  ∧ (upsert_simple (fun _ => true) 0 [] ["0xA"]).2.lookup "errors" = none
  ∧ (upsert_simple (fun _ => true) 0 [] ["0xA"]).2.lookup "errored" = none :=
  ⟨rfl, rfl, rfl⟩

/-- C2: the resume position is the (blockNumber, logIndex) pair of the
most recently written row of the target table; when that row carries no
logIndex the cycle falls back to the table's maximum blockNumber alone
(continuing from the next block); an empty table triggers a full load.
The cursor read itself is modelled from the spec, since
`get_last_cursor` is absent from the source tree. -/
theorem cursor_readback :
    (∀ (tbl : Store) (r : EventRow) (l : Int),
        tbl.getLast? = some r → r.log_index = some l →
        readResume tbl = Resume.cursorBased r.block_number l)
  ∧ (∀ (tbl : Store) (r : EventRow),
        tbl.getLast? = some r → r.log_index = none →
        ∃ m, get_last_processed_block tbl = some m
          ∧ readResume tbl = Resume.blockGte (m + 1))
  ∧ readResume [] = Resume.fullLoad := by
  refine ⟨?_, ?_, rfl⟩
  · intro tbl r l hlast hlog
    unfold readResume get_last_cursor
    rw [hlast]
    simp [hlog]
  · intro tbl r hlast hlog
    have hne : tbl ≠ [] := by
      intro h
      subst h
      simp at hlast
    have hmapne : tbl.map (fun q => q.block_number) ≠ [] := by
      simpa using hne
    cases hmax : (tbl.map (fun q => q.block_number)).max? with
    | none => exact absurd (List.max?_eq_none_iff.mp hmax) hmapne
    | some m =>
      refine ⟨m, hmax, ?_⟩
      unfold readResume get_last_cursor get_last_processed_block
      rw [hlast]
      simp [hlog, hmax]

/-- C2 witness: a table whose last row carries (100, 0) resumes from the
cursor pair; a table whose last row lacks a logIndex resumes from its
maximum block. -/
theorem cursor_readback_witness :
    (readResume [sampleRow "a" 100] = Resume.cursorBased 100 0)
  ∧ (∃ m, get_last_processed_block [{ sampleRow "b" 200 with log_index := none }] = some m
        ∧ readResume [{ sampleRow "b" 200 with log_index := none }] = Resume.blockGte (m + 1)) :=
  ⟨cursor_readback.1 [sampleRow "a" 100] (sampleRow "a" 100) 0 rfl rfl,
   cursor_readback.2.1 [{ sampleRow "b" 200 with log_index := none }]
     { sampleRow "b" 200 with log_index := none } rfl rfl⟩

/-! ### Entity-type isolation -/

lemma upsert_entities_lookup (page : List EventRow)
    (extractors : List (String × (List EventRow → Except String (List String))))
    (run : String → List String → Except String (List (String × Nat))) :
    ∀ (deps : List String) (t : String)
      (ext : List EventRow → Except String (List String)),
      t ∈ deps → extractors.lookup t = some ext →
      (upsert_entities page extractors run deps).lookup t =
        some (match (ext page).bind (run t) with
              | Except.ok s => EntityResult.stats s
              | Except.error e => EntityResult.errorResult e) := by
  intro deps
  induction deps with
  | nil =>
    intro t ext h
    cases h
  | cons u rest ih =>
    intro t ext ht hx
    by_cases hu : u = t
    · subst hu
      simp only [upsert_entities, hx]
      cases hb : (ext page).bind (run u) <;> simp [lookup_cons]
    · have ht2 : t ∈ rest := by
        rcases List.mem_cons.mp ht with h1 | h2
        · exact absurd h1.symm hu
        · exact h2
      simp only [upsert_entities]
      split
      · exact ih t ext ht2 hx
      · split
        · rw [lookup_cons, if_neg (fun h => hu h.symm)]
          exact ih t ext ht2 hx
        · rw [lookup_cons, if_neg (fun h => hu h.symm)]
          exact ih t ext ht2 hx

/-- A failing entity type is recorded as its error entry by the
state-threaded per-type loop. -/
lemma upsert_entities_st_error (page : List EventRow) (now : Int)
    (extractors : List (String × (List EventRow → Except String (List String)))) :
    ∀ (deps : List String) (stores : String → EStore) (t : String)
      (ext : List EventRow → Except String (List String)) (m : String),
      t ∈ deps → extractors.lookup t = some ext → ext page = Except.error m →
      (upsert_entities_st page now extractors stores deps).2.lookup t
        = some (EntityResult.errorResult m) := by
  intro deps
  induction deps with
  | nil =>
    intro stores t ext m h
    cases h
  | cons u rest ih =>
    intro stores t ext m ht hx hfail
    by_cases hu : u = t
    · subst hu
      simp [upsert_entities_st, hx, hfail, lookup_cons]
    · have ht2 : t ∈ rest := by
        rcases List.mem_cons.mp ht with h1 | h2
        · exact absurd h1.symm hu
        · exact h2
      have hne2 : ¬t = u := fun h => hu h.symm
      simp only [upsert_entities_st]
      split
      · exact ih _ t ext m ht2 hx hfail
      · split
        · simp only [lookup_cons, hne2, if_false]
          exact ih _ t ext m ht2 hx hfail
        · split
          · simp only [lookup_cons, hne2, if_false]
            exact ih _ t ext m ht2 hx hfail
          · simp only [lookup_cons, hne2, if_false]
            exact ih _ t ext m ht2 hx hfail

/-- A successfully extracted entity type keeps a stats entry in the
state-threaded per-type loop. -/
lemma upsert_entities_st_ok (page : List EventRow) (now : Int)
    (extractors : List (String × (List EventRow → Except String (List String)))) :
    ∀ (deps : List String) (stores : String → EStore) (u : String)
      (e2 : List EventRow → Except String (List String)) (ids : List String),
      u ∈ deps → extractors.lookup u = some e2 → e2 page = Except.ok ids →
      ∃ s, (upsert_entities_st page now extractors stores deps).2.lookup u
        = some (EntityResult.stats s) := by
  intro deps
  induction deps with
  | nil =>
    intro stores u e2 ids h
    cases h
  | cons t rest ih =>
    intro stores u e2 ids hu hx hok
    by_cases htu : t = u
    · subst htu
      by_cases hk : t ∈ knownEntityTypes
      · exact ⟨(upsert_simple (fun _ => false) now (stores t) ids).2,
          by simp [upsert_entities_st, hx, hok, hk, lookup_cons]⟩
      · exact ⟨dict3 0 0 0,
          by simp [upsert_entities_st, hx, hok, hk, lookup_cons]⟩
    · have hu2 : u ∈ rest := by
        rcases List.mem_cons.mp hu with h1 | h2
        · exact absurd h1.symm htu
        · exact h2
      have hne2 : ¬u = t := fun h => htu h.symm
      simp only [upsert_entities_st]
      split
      · exact ih _ u e2 ids hu2 hx hok
      · split
        · simp only [lookup_cons, hne2, if_false]
          exact ih _ u e2 ids hu2 hx hok
        · split
          · simp only [lookup_cons, hne2, if_false]
            exact ih _ u e2 ids hu2 hx hok
          · simp only [lookup_cons, hne2, if_false]
            exact ih _ u e2 ids hu2 hx hok

/-- C5 counterexample: under the FK-bearing schema the Operator
resolver failure does change events_inserted. The fresh event row
references operator "0xA", which only the failed entity step would have
inserted, so its write fails the foreign-key check and is counted as an
error (0 inserted); the identical cycle with the resolver succeeding
inserts it (1 inserted). -/
theorem entity_failure_fk_counterexample :
    ((run_cycle_fk (fun _ => false) 7 [] (fun _ => []) (some [fkRow])
        [("Operator", fun _ => Except.error "boom")] ["Operator"]
        [("operator_id", "Operator")]).2.2.events_inserted = 0)
  ∧ ((run_cycle_fk (fun _ => false) 7 [] (fun _ => []) (some [fkRow])
        [("Operator", fun _ => Except.ok ["0xA"])] ["Operator"]
        [("operator_id", "Operator")]).2.2.events_inserted = 1)
  ∧ ((run_cycle_fk (fun _ => false) 7 [] (fun _ => []) (some [fkRow])
        [("Operator", fun _ => Except.error "boom")] ["Operator"]
        [("operator_id", "Operator")]).2.2.events_errors = 1)
  ∧ ((run_cycle_fk (fun _ => false) 7 [] (fun _ => []) (some [fkRow])
        [("Operator", fun _ => Except.error "boom")] ["Operator"]
        [("operator_id", "Operator")]).2.2.entities_upserted.lookup "Operator"
      = some (EntityResult.errorResult "boom")) :=
  ⟨rfl, rfl, rfl, rfl⟩

/-- C5 (amended): one entity type whose extraction raises is recorded
as that type's error entry, the remaining entity types are still
processed with their own outcomes, and the event load still runs to a
success report over the whole page; but events_inserted is not in
general unaffected: a row whose NOT NULL foreign key references an
entity only the failed step would have committed fails the FK check and
is counted under errors instead of inserted, the four counts still
partitioning the page. -/
theorem entity_failure_isolated_fk (rowError : EventRow → Bool) (now : Int)
    (store : Store) (stores : String → EStore) (df : List EventRow)
    (extractors : List (String × (List EventRow → Except String (List String))))
    (deps : List String) (fks : List (String × String))
    (t : String) (ext : List EventRow → Except String (List String)) (m : String)
    (hdep : t ∈ deps) (hext : extractors.lookup t = some ext)
    (hfail : ext df = Except.error m) :
    ((run_cycle_fk rowError now store stores (some df) extractors deps
          fks).2.2.entities_upserted.lookup t
        = some (EntityResult.errorResult m))
  ∧ (∀ (u : String) (e2 : List EventRow → Except String (List String))
        (ids : List String),
        u ∈ deps → extractors.lookup u = some e2 → e2 df = Except.ok ids →
        ∃ s, (run_cycle_fk rowError now store stores (some df) extractors deps
            fks).2.2.entities_upserted.lookup u
          = some (EntityResult.stats s))
  ∧ ((run_cycle_fk rowError now store stores (some df) extractors deps fks).2.2.status
      = "success")
  ∧ ((run_cycle_fk rowError now store stores (some df) extractors deps
        fks).2.2.events_fetched = df.length)
  ∧ ((run_cycle_fk rowError now store stores (some df) extractors deps
        fks).2.2.events_inserted
      = (load_events
          (fun r => rowError r
            || fk_row_error (upsert_entities_st df now extractors stores deps).1 fks r)
          store df).2.inserted)
  ∧ ((run_cycle_fk rowError now store stores (some df) extractors deps
          fks).2.2.events_inserted
      + (run_cycle_fk rowError now store stores (some df) extractors deps
          fks).2.2.events_updated
      + (run_cycle_fk rowError now store stores (some df) extractors deps
          fks).2.2.events_skipped
      + (run_cycle_fk rowError now store stores (some df) extractors deps
          fks).2.2.events_errors
      = df.length) := by
  refine ⟨?_, ?_, rfl, rfl, rfl, ?_⟩
  · exact upsert_entities_st_error df now extractors deps stores t ext m hdep hext hfail
  · intro u e2 ids hu hx hok
    exact upsert_entities_st_ok df now extractors deps stores u e2 ids hu hx hok
  · exact load_events_partition _ store df

/-- C5 witness: the Operator resolver throws while the Staker resolver
succeeds; the failure is isolated into the Operator error entry. -/
theorem entity_failure_isolated_fk_witness :
    ((run_cycle_fk (fun _ => false) 7 [] (fun _ => []) (some [fkRow])
        [("Operator", fun _ => Except.error "boom"),
         ("Staker", fun _ => Except.ok ["0xS"])]
        ["Operator", "Staker"]
        [("operator_id", "Operator")]).2.2.entities_upserted.lookup "Operator"
      = some (EntityResult.errorResult "boom")) :=
  (entity_failure_isolated_fk (fun _ => false) 7 [] (fun _ => []) [fkRow]
    [("Operator", fun _ => Except.error "boom"),
     ("Staker", fun _ => Except.ok ["0xS"])]
    ["Operator", "Staker"] [("operator_id", "Operator")]
    "Operator" (fun _ => Except.error "boom") "boom"
    (by decide) rfl rfl).1

/-- C9 counterexample: a descriptor declaring an Operator dependency
with no registered extractor runs its cycle to success at runtime (the
type is silently skipped), and an unknown entity-type tag yields zero
stats at runtime; neither condition fails at startup. -/
theorem fatal_config_counterexample :
    upsert_entities [sampleRow "a" 1] []
        (dispatch_upsert (fun _ => []) (fun _ _ => false) 0) ["Operator"] = []
  ∧ (run_cycle (fun _ => false) [] (some [sampleRow "a" 1]) []
       (dispatch_upsert (fun _ => []) (fun _ _ => false) 0) ["Operator"]).2.status
      = "success"
  ∧ upsert_entities [sampleRow "a" 1]
      [("OperatorSet", fun _ => Except.ok ["0xA-1"])]
      (dispatch_upsert (fun _ => []) (fun _ _ => false) 0) ["OperatorSet"]
      = [("OperatorSet", EntityResult.stats (dict3 0 0 0))] :=
  ⟨rfl, rfl, rfl⟩

/-- C9 (amended): a declared dependency with no registered extraction
rule is skipped at per-cycle runtime and omitted from the entity stats;
an unknown entity-type tag yields zero stats at runtime; neither aborts
the cycle or the startup. Only the registry lookup of an unknown
event-type name raises (`get_event_config`). -/
theorem fatal_config_amended :
    (∀ (page : List EventRow)
       (extractors : List (String × (List EventRow → Except String (List String))))
       (run : String → List String → Except String (List (String × Nat)))
       (t : String) (deps : List String),
        extractors.lookup t = none →
        upsert_entities page extractors run (t :: deps)
          = upsert_entities page extractors run deps)
  ∧ (∀ (stores : String → EStore) (fails : String → String → Bool)
       (now : Int) (t : String) (ids : List String),
        t ∉ knownEntityTypes →
        dispatch_upsert stores fails now t ids = Except.ok (dict3 0 0 0))
  ∧ (∀ n, OPERATOR_EVENT_CONFIGS.lookup n = none →
        get_event_config n = Except.error ("Unknown event type: " ++ n)) := by
  refine ⟨?_, ?_, ?_⟩
  · intro page extractors run t deps h
    simp [upsert_entities, h]
  · intro stores fails now t ids h
    simp [dispatch_upsert, h]
  · intro n h
    simp [get_event_config, h]

/-- C9 amended witness at the concrete registry and a concrete missing
extractor. -/
theorem fatal_config_amended_witness :
    (upsert_entities [] []
        (dispatch_upsert (fun _ => []) (fun _ _ => false) 0) ["Operator"]
      = upsert_entities [] []
          (dispatch_upsert (fun _ => []) (fun _ _ => false) 0) [])
  ∧ (dispatch_upsert (fun _ => []) (fun _ _ => false) 0 "OperatorSet" []
      = Except.ok (dict3 0 0 0))
  ∧ (get_event_config "operatorSlasheds"
      = Except.error ("Unknown event type: " ++ "operatorSlasheds")) :=
  ⟨fatal_config_amended.1 [] [] (dispatch_upsert (fun _ => []) (fun _ _ => false) 0)
      "Operator" [] rfl,
   fatal_config_amended.2.1 (fun _ => []) (fun _ _ => false) 0 "OperatorSet" [] (by decide),
   fatal_config_amended.2.2 "operatorSlasheds" rfl⟩

end SubgraphPipeline
